import Mathlib

/-!
# Verification of the `hr` screening engine

A shallow embedding, in Lean 4, of the screening core of the `hr`
repository (`src/hrscreening`), together with theorems settling the
frozen claims about it.

Conventions of the embedding:

* Python `float` arithmetic is modelled by exact arithmetic (`ℚ` for the
  purely rational computations, `ℝ` where the source uses `math.log` /
  `math.sqrt`).
* Python `dict[str, float]` values are modelled as association lists
  `List (String × _)`; `dict.get(k, 0)` is `lookupD l k 0` (first match,
  default on a miss), mirroring insertion-ordered dictionaries.
* `None` is `Option.none`; functions that can raise return `Except`.
-/

namespace HrScreening

/-- `dict.get(key, default)`: value of the first entry with the given key,
or the default when the key is absent. -/
def lookupD {α : Type} (l : List (String × α)) (k : String) (d : α) : α :=
  match l with
  | [] => d
  | p :: rest => if p.1 = k then p.2 else lookupD rest k d

/-- Keys of an association list. -/
def keysOf {α : Type} (l : List (String × α)) : List String :=
  l.map Prod.fst

@[simp] theorem lookupD_nil {α : Type} (k : String) (d : α) :
    lookupD [] k d = d := rfl

@[simp] theorem lookupD_cons {α : Type} (p : String × α) (l : List (String × α))
    (k : String) (d : α) :
    lookupD (p :: l) k d = if p.1 = k then p.2 else lookupD l k d := rfl

theorem lookupD_eq_default_of_not_mem {α : Type} (l : List (String × α))
    (k : String) (d : α) (h : k ∉ keysOf l) : lookupD l k d = d := by
  induction l with
  | nil => rfl
  | cons p rest ih =>
      have h' : ¬(k = p.1) ∧ k ∉ keysOf rest := by
        simpa [keysOf, not_or] using h
      rw [lookupD_cons, if_neg (fun hk => h'.1 hk.symm)]
      exact ih h'.2

/-! ## ScreeningCore: decision types and aggregation

Embedding of `src/hrscreening/core/screening.py`.
-/

/-- The `DecisionType` literal: `"pass" | "borderline" | "reject"`. -/
inductive Decision where
  | isPass : Decision
  | borderline : Decision
  | reject : Decision
  deriving DecidableEq, Repr

/-- `ScreeningCore` thresholds map: the `"pass"` and `"borderline"` entries
(the `"reject": 0.0` entry is never read by `_decide`). -/
structure Thresholds where
  passTh : ℚ
  borderlineTh : ℚ
  deriving DecidableEq, Repr

/-- `ScreeningCore.DEFAULT_THRESHOLDS` (`pass: 0.80`, `borderline: 0.65`). -/
def defaultThresholds : Thresholds := { passTh := 0.80, borderlineTh := 0.65 }

/-- `ScreeningCore.DEFAULT_WEIGHTS`, an insertion-ordered mapping from
metric name to weight. -/
def defaultWeights : List (String × ℚ) :=
  [("bm25_prox", 0.45), ("embed_sim", 0.40), ("sim_title", 0.10), ("title_bonus", 0.05)]

/-- `ScreeningCore._decide`: hard failures force `reject`; otherwise the
score is compared against the pass and borderline thresholds. -/
def screeningDecide (th : Thresholds) (score : ℚ) (hardFailures : List String) : Decision :=
  if hardFailures ≠ [] then Decision.reject
  else if th.passTh ≤ score then Decision.isPass
  else if th.borderlineTh ≤ score then Decision.borderline
  else Decision.reject

/-- One step of score aggregation:
`agg[key] = agg.get(key, 0.0) + float(value)` on a Python dict, which
updates the entry in place when the key exists and appends it otherwise. -/
def upsertAdd (agg : List (String × ℚ)) (k : String) (v : ℚ) : List (String × ℚ) :=
  if k ∈ keysOf agg then
    agg.map (fun p => if p.1 = k then (p.1, p.2 + v) else p)
  else
    agg ++ [(k, v)]

/-- Merging one evaluator's `scores` dict into the aggregate
(the inner `for key, value in normalized.scores.items()` loop). -/
def mergeScores (agg : List (String × ℚ)) (scores : List (String × ℚ)) :
    List (String × ℚ) :=
  scores.foldl (fun a p => upsertAdd a p.1 p.2) agg

/-- Aggregation over all evaluators in registration order
(the outer `for evaluator in self._evaluators` loop), starting from `{}`. -/
def aggregateScores (evals : List (List (String × ℚ))) : List (String × ℚ) :=
  evals.foldl mergeScores []

/-- `ScreeningCore._compute_weighted_score`:
`sum(scores.get(metric, 0.0) * weight for metric, weight in weights.items())`. -/
def computeWeightedScore (weights : List (String × ℚ)) (scores : List (String × ℚ)) : ℚ :=
  (weights.map (fun mw => lookupD scores mw.1 0 * mw.2)).sum

/-- Key-wise total emitted for metric `k` by one evaluator's score map
(equals the dict value since dict keys are unique, and 0 for a missing key). -/
def keySum (scores : List (String × ℚ)) (k : String) : ℚ :=
  ((scores.filter (fun p => p.1 = k)).map Prod.snd).sum

theorem lookupD_append (l l' : List (String × ℚ)) (k : String) :
    lookupD (l ++ l') k 0 =
      if k ∈ keysOf l then lookupD l k 0 else lookupD l' k 0 := by
  induction l with
  | nil => simp [keysOf]
  | cons p rest ih =>
      by_cases hp : p.1 = k
      · simp [keysOf, lookupD_cons, hp]
      · have : k ∈ keysOf (p :: rest) ↔ k ∈ keysOf rest := by
          simp only [keysOf, List.map_cons, List.mem_cons]
          constructor
          · rintro (h | h)
            · exact absurd h.symm hp
            · exact h
          · exact Or.inr
        simp only [List.cons_append, lookupD_cons, if_neg hp, ih, this]

theorem lookupD_mapAdd_ne (agg : List (String × ℚ)) (k k' : String) (v : ℚ)
    (hne : k ≠ k') :
    lookupD (agg.map (fun p => if p.1 = k' then (p.1, p.2 + v) else p)) k 0 =
      lookupD agg k 0 := by
  induction agg with
  | nil => rfl
  | cons p rest ih =>
      simp only [List.map_cons]
      by_cases hp : p.1 = k'
      · have hpk : p.1 ≠ k := fun h => hne (h ▸ hp)
        rw [if_pos hp, lookupD_cons, lookupD_cons, if_neg hpk, if_neg hpk]
        exact ih
      · rw [if_neg hp, lookupD_cons, lookupD_cons]
        by_cases hk : p.1 = k
        · rw [if_pos hk, if_pos hk]
        · rw [if_neg hk, if_neg hk]
          exact ih

theorem lookupD_mapAdd_self (agg : List (String × ℚ)) (k' : String) (v : ℚ)
    (hmem : k' ∈ keysOf agg) :
    lookupD (agg.map (fun p => if p.1 = k' then (p.1, p.2 + v) else p)) k' 0 =
      lookupD agg k' 0 + v := by
  induction agg with
  | nil => simp [keysOf] at hmem
  | cons p rest ih =>
      simp only [List.map_cons]
      by_cases hp : p.1 = k'
      · rw [if_pos hp, lookupD_cons, lookupD_cons, if_pos hp, if_pos hp]
      · have hmem' : k' ∈ keysOf rest := by
          simp only [keysOf, List.map_cons, List.mem_cons] at hmem
          rcases hmem with h | h
          · exact absurd h.symm hp
          · exact h
        rw [if_neg hp, lookupD_cons, lookupD_cons, if_neg hp, if_neg hp, ih hmem']

theorem lookupD_upsertAdd (agg : List (String × ℚ)) (k k' : String) (v : ℚ) :
    lookupD (upsertAdd agg k' v) k 0 =
      lookupD agg k 0 + if k = k' then v else 0 := by
  unfold upsertAdd
  by_cases hmem : k' ∈ keysOf agg
  · rw [if_pos hmem]
    by_cases hk : k = k'
    · subst hk
      simp [lookupD_mapAdd_self agg k v hmem]
    · simp [lookupD_mapAdd_ne agg k k' v hk, hk]
  · rw [if_neg hmem, lookupD_append]
    by_cases hk : k = k'
    · subst hk
      rw [if_neg hmem, lookupD_eq_default_of_not_mem agg k 0 hmem]
      simp
    · by_cases hmemk : k ∈ keysOf agg
      · simp [hmemk, hk]
      · rw [if_neg hmemk, lookupD_eq_default_of_not_mem agg k 0 hmemk]
        have hk' : ¬(k' = k) := fun h => hk h.symm
        simp [hk, hk']

theorem lookupD_mergeScores (agg scores : List (String × ℚ)) (k : String) :
    lookupD (mergeScores agg scores) k 0 = lookupD agg k 0 + keySum scores k := by
  induction scores generalizing agg with
  | nil => simp [mergeScores, keySum]
  | cons p rest ih =>
      simp only [mergeScores, List.foldl_cons] at *
      rw [ih (upsertAdd agg p.1 p.2), lookupD_upsertAdd]
      by_cases hp : p.1 = k
      · simp [keySum, hp, List.filter_cons, add_assoc, add_comm, add_left_comm]
      · have : ¬(k = p.1) := fun h => hp h.symm
        simp [keySum, List.filter_cons, hp, this]

/-- The aggregate value for a metric is the sum over evaluators, in order,
of that evaluator's key-wise emission. -/
theorem lookupD_aggregateScores (evals : List (List (String × ℚ))) (k : String) :
    lookupD (aggregateScores evals) k 0 = (evals.map (fun e => keySum e k)).sum := by
  have gen : ∀ (agg : List (String × ℚ)),
      lookupD (evals.foldl mergeScores agg) k 0 =
        lookupD agg k 0 + (evals.map (fun e => keySum e k)).sum := by
    induction evals with
    | nil => intro agg; simp
    | cons e rest ih =>
        intro agg
        simp only [List.foldl_cons, List.map_cons, List.sum_cons]
        rw [ih (mergeScores agg e), lookupD_mergeScores, add_assoc]
  simpa [aggregateScores] using gen []

/-! ## Hard gates

Embedding of `ScreeningCore._evaluate_hard_gates` and its helpers.
The candidate and job models carry exactly the fields the gates read.
-/

/-- `schemas/job.py` `SalaryRange`: optional integer bounds in yen. -/
structure SalaryRange where
  minJpy : Option ℤ
  maxJpy : Option ℤ
  deriving DecidableEq, Repr

/-- `schemas/job.py` `JobConstraints` (the fields the gates read). -/
structure JobConstraints where
  language : List String
  location : List String
  visa : Option String
  salaryRange : Option SalaryRange
  deriving DecidableEq, Repr

/-- The gate-relevant slice of `schemas/candidate.py` `CandidateProfile`:
language names of `languages`, `location`, `constraints.visa`
(`none` both for an absent `constraints` object and an absent `visa`),
and the two desired-salary bounds. -/
structure CandidateGateView where
  languages : List String
  location : Option String
  visa : Option String
  desiredMinJpy : Option ℤ
  desiredMaxJpy : Option ℤ
  deriving DecidableEq, Repr

/-- `ScreeningCore._normalize_language`: trim, lowercase, then fold through
the alias table. -/
def normalizeLanguage (language : String) : String :=
  if language = "" then ""
  else
    let normalized := language.trim.toLower
    lookupD
      [("日本語", "ja"), ("にほんご", "ja"), ("japanese", "ja"), ("jp", "ja"), ("ja", "ja"),
       ("英語", "en"), ("えいご", "en"), ("english", "en"), ("en", "en")]
      normalized normalized

/-- `ScreeningCore._language_ok`. -/
def languageOk (candidate : CandidateGateView) (requiredLanguages : List String) : Bool :=
  if requiredLanguages = [] then true
  else
    let candidateLangs := candidate.languages.map normalizeLanguage
    if candidateLangs = [] then false
    else
      let required := requiredLanguages.map normalizeLanguage
      candidateLangs.any (fun l => required.contains l)

/-- `ScreeningCore._location_ok`. -/
def locationOk (candidate : CandidateGateView) (requiredLocations : List String) : Bool :=
  if requiredLocations = [] then true
  else
    match candidate.location with
    | none => false
    | some loc =>
        if loc = "" then false
        else requiredLocations.any (fun r => r.trim.toLower == loc.trim.toLower)

/-- `ScreeningCore._visa_ok`. The candidate visa is the trimmed lowercase
of `constraints.visa` when present and non-empty (Python truthiness). -/
def visaOk (candidateVisa : Option String) (requiredVisa : Option String) : Bool :=
  match requiredVisa with
  | none => true
  | some req =>
      if req = "" then true
      else
        match candidateVisa with
        | none => false
        | some v =>
            if v = "" then false
            else
              let cv := v.trim.toLower
              if cv = "ok" ∨ cv = "valid" ∨ cv = "yes" then true
              else cv = req.trim.toLower

/-- `ScreeningCore._salary_ok`: the raw (not tolerance-expanded) job range
against the candidate's stated desired bounds. -/
def salaryOk (candidate : CandidateGateView) (salaryRange : Option SalaryRange) : Bool :=
  match salaryRange with
  | none => true
  | some sr =>
      match sr.minJpy, sr.maxJpy with
      | none, none => true
      | minReq, maxReq =>
          match candidate.desiredMinJpy, candidate.desiredMaxJpy with
          | none, none => true
          | desiredMin, desiredMax =>
              let failHigh :=
                match desiredMin, maxReq with
                | some dmin, some mr => decide (mr < dmin)
                | _, _ => false
              let failLow :=
                match desiredMax, minReq with
                | some dmax, some mr => decide (dmax < mr)
                | _, _ => false
              !(failHigh || failLow)

/-- `ScreeningCore._evaluate_hard_gates`: the insertion-ordered flag dict. -/
def evaluateHardGates (candidate : CandidateGateView) (constraints : JobConstraints) :
    List (String × Bool) :=
  [("language_ok", languageOk candidate constraints.language),
   ("location_ok", locationOk candidate constraints.location),
   ("visa_ok", visaOk candidate.visa constraints.visa),
   ("salary_ok", salaryOk candidate constraints.salaryRange)]

/-- `ScreeningCore._HARD_GATE_LABELS` lookup with fallthrough to the key. -/
def hardGateLabel (k : String) : String :=
  lookupD
    [("language_ok", "language"), ("location_ok", "location"),
     ("visa_ok", "visa"), ("salary_ok", "salary")]
    k k

/-- `hard_failures`: labels of all gates whose flag is false, in dict order. -/
def hardFailuresOf (flags : List (String × Bool)) : List String :=
  (flags.filter (fun p => !p.2)).map (fun p => hardGateLabel p.1)

/-- `DecisionSummary` as the source dataclass defines it: `decision`,
`pre_llm_score`, `hard_gate_flags`, `hard_failures` (and nothing else). -/
structure DecisionSummary where
  decision : Decision
  preLlmScore : ℚ
  hardGateFlags : List (String × Bool)
  hardFailures : List String
  deriving DecidableEq, Repr

/-- Field names of the `DecisionSummary` dataclass, in declaration order. -/
def decisionSummaryFields : List String :=
  ["decision", "pre_llm_score", "hard_gate_flags", "hard_failures"]

/-- Modelled from the spec: the field list §3 gives for **DecisionSummary**
(the `hard_gate_details` member is absent from the source dataclass). -/
def specDecisionSummaryFields : List String :=
  ["decision", "pre_llm_score", "hard_gate_flags", "hard_gate_details", "hard_failures"]

/-- Attributes of `outcome.decision` that `ScreeningPipeline.run`
(`pipeline.py`) reads unconditionally when logging each candidate. -/
def pipelineDecisionAttrsRead : List String :=
  ["decision", "hard_gate_flags", "hard_gate_details"]

/-- `AggregateScores` view of the outcome. -/
structure AggregateScores where
  scores : List (String × ℚ)
  preLlmScore : ℚ
  deriving DecidableEq, Repr

/-- The decision-relevant payload of `ScreeningOutcome`. -/
structure ScreeningOutcome where
  aggregate : AggregateScores
  decision : DecisionSummary
  deriving DecidableEq, Repr

/-- `ScreeningCore.evaluate`, from the point where every evaluator's
normalized `scores` dict is in hand (evaluator invocation and pydantic
serialization are abstracted into the `evalScores` argument, one score
dict per registered evaluator, in registration order). -/
def screeningEvaluate (weights : List (String × ℚ)) (th : Thresholds)
    (evalScores : List (List (String × ℚ)))
    (candidate : CandidateGateView) (constraints : JobConstraints) : ScreeningOutcome :=
  let aggregated := aggregateScores evalScores
  let preLlm := computeWeightedScore weights aggregated
  let flags := evaluateHardGates candidate constraints
  let failures := hardFailuresOf flags
  { aggregate := { scores := aggregated, preLlmScore := preLlm }
    decision :=
      { decision := screeningDecide th preLlm failures
        preLlmScore := preLlm
        hardGateFlags := flags
        hardFailures := failures } }

/-! ## Evaluator result normalization

Embedding of `ScreeningCore._normalize_evaluation_result`. The dynamic
`payload` is modelled at the granularity the claims need: `method` is an
optional string (`payload.get("method")`), and the `scores` value is a
Python value whose dict case maps strings to numbers (the numeric
`float(v)` coercion always succeeds at this granularity; `metadata`
handling is value-preserving and not modelled). -/

/-- A Python value, as far as `scores` handling observes it. -/
inductive PyVal where
  | pnone : PyVal
  | pstr : String → PyVal
  | pnum : ℚ → PyVal
  | plist : List ℚ → PyVal
  | pdict : List (String × ℚ) → PyVal
  deriving DecidableEq, Repr

/-- Python truthiness of a `PyVal`. -/
def PyVal.truthy : PyVal → Bool
  | .pnone => false
  | .pstr s => s ≠ ""
  | .pnum q => q ≠ 0
  | .plist xs => xs ≠ []
  | .pdict xs => xs ≠ []

/-- `isinstance(v, dict)`. -/
def PyVal.isDict : PyVal → Bool
  | .pdict _ => true
  | _ => false

/-- A raw evaluator result payload: `payload.get("method")` and the
`"scores"` value (`PyVal.pnone` for an absent key). -/
structure RawResult where
  method : Option String
  scores : PyVal
  deriving DecidableEq, Repr

/-- `ScreeningCore._normalize_evaluation_result`: `scores or {}` coerces a
falsy value to the empty dict, a missing `method` raises, and a (truthy)
non-dict `scores` raises. -/
def normalizeResult (payload : RawResult) : Except String (String × List (String × ℚ)) :=
  let scores := if payload.scores.truthy then payload.scores else PyVal.pdict []
  match payload.method with
  | none => Except.error "Evaluator result must include method."
  | some m =>
      match scores with
      | PyVal.pdict xs => Except.ok (m, xs)
      | _ => Except.error "Evaluator result scores must be a mapping."

/-- Modelled from the claim's words: the payloads it says are rejected
(`method` missing, or the `scores` value not a map). -/
def claimRejects (payload : RawResult) : Bool :=
  payload.method.isNone || !payload.scores.isDict

/-- Whether a normalization attempt raised. -/
def isError {ε α : Type} : Except ε α → Bool
  | .error _ => true
  | .ok _ => false

@[simp] theorem screeningEvaluate_decision_decision (w : List (String × ℚ)) (th : Thresholds)
    (evals : List (List (String × ℚ))) (cand : CandidateGateView) (job : JobConstraints) :
    (screeningEvaluate w th evals cand job).decision.decision =
      screeningDecide th (computeWeightedScore w (aggregateScores evals))
        (hardFailuresOf (evaluateHardGates cand job)) := rfl

@[simp] theorem screeningEvaluate_decision_preLlmScore (w : List (String × ℚ)) (th : Thresholds)
    (evals : List (List (String × ℚ))) (cand : CandidateGateView) (job : JobConstraints) :
    (screeningEvaluate w th evals cand job).decision.preLlmScore =
      computeWeightedScore w (aggregateScores evals) := rfl

@[simp] theorem screeningEvaluate_decision_hardFailures (w : List (String × ℚ)) (th : Thresholds)
    (evals : List (List (String × ℚ))) (cand : CandidateGateView) (job : JobConstraints) :
    (screeningEvaluate w th evals cand job).decision.hardFailures =
      hardFailuresOf (evaluateHardGates cand job) := rfl

@[simp] theorem screeningEvaluate_aggregate_scores (w : List (String × ℚ)) (th : Thresholds)
    (evals : List (List (String × ℚ))) (cand : CandidateGateView) (job : JobConstraints) :
    (screeningEvaluate w th evals cand job).aggregate.scores = aggregateScores evals := rfl

@[simp] theorem screeningEvaluate_aggregate_preLlmScore (w : List (String × ℚ)) (th : Thresholds)
    (evals : List (List (String × ℚ))) (cand : CandidateGateView) (job : JobConstraints) :
    (screeningEvaluate w th evals cand job).aggregate.preLlmScore =
      computeWeightedScore w (aggregateScores evals) := rfl

theorem screeningDecide_eq_pass_iff (th : Thresholds) (s : ℚ) (f : List String) :
    screeningDecide th s f = Decision.isPass ↔ f = [] ∧ th.passTh ≤ s := by
  unfold screeningDecide
  split_ifs with h1 h2 h3 <;> simp_all

theorem screeningDecide_eq_borderline_iff (th : Thresholds) (s : ℚ) (f : List String) :
    screeningDecide th s f = Decision.borderline ↔
      f = [] ∧ th.borderlineTh ≤ s ∧ s < th.passTh := by
  unfold screeningDecide
  split_ifs with h1 h2 h3 <;> simp_all

theorem screeningDecide_eq_reject_iff (th : Thresholds) (s : ℚ) (f : List String) :
    screeningDecide th s f = Decision.reject ↔
      f ≠ [] ∨ (s < th.passTh ∧ s < th.borderlineTh) := by
  unfold screeningDecide
  split_ifs with h1 h2 h3 <;> simp_all

/-- **C1.** `ScreeningCore.evaluate` decides exactly as specified: a
non-empty hard-failure list forces `reject`; otherwise the decision is
`pass` iff the weighted score reaches `thresholds.pass`, `borderline` iff
it is in `[thresholds.borderline, thresholds.pass)`, and `reject`
otherwise; in particular `pass` implies the score bound and an empty
hard-failure list. The defaults are `pass: 0.80`, `borderline: 0.65`. -/
theorem evaluate_decision_rule :
    (∀ (w : List (String × ℚ)) (th : Thresholds) (evals : List (List (String × ℚ)))
        (cand : CandidateGateView) (job : JobConstraints),
      ((screeningEvaluate w th evals cand job).decision.decision = Decision.isPass ↔
        (screeningEvaluate w th evals cand job).decision.hardFailures = [] ∧
          th.passTh ≤ (screeningEvaluate w th evals cand job).decision.preLlmScore) ∧
      ((screeningEvaluate w th evals cand job).decision.decision = Decision.borderline ↔
        (screeningEvaluate w th evals cand job).decision.hardFailures = [] ∧
          th.borderlineTh ≤ (screeningEvaluate w th evals cand job).decision.preLlmScore ∧
          (screeningEvaluate w th evals cand job).decision.preLlmScore < th.passTh) ∧
      ((screeningEvaluate w th evals cand job).decision.decision = Decision.reject ↔
        (screeningEvaluate w th evals cand job).decision.hardFailures ≠ [] ∨
          ((screeningEvaluate w th evals cand job).decision.preLlmScore < th.passTh ∧
            (screeningEvaluate w th evals cand job).decision.preLlmScore < th.borderlineTh))) ∧
    defaultThresholds.passTh = 0.80 ∧ defaultThresholds.borderlineTh = 0.65 := by
  refine ⟨fun w th evals cand job => ?_, rfl, rfl⟩
  simp only [screeningEvaluate_decision_decision, screeningEvaluate_decision_preLlmScore,
    screeningEvaluate_decision_hardFailures]
  exact ⟨screeningDecide_eq_pass_iff th _ _, screeningDecide_eq_borderline_iff th _ _,
    screeningDecide_eq_reject_iff th _ _⟩

/-- **C2.** The aggregate score map is the key-wise sum of the evaluator
score maps; `pre_llm_score` is the weighted sum, over the configured
weight map, of the aggregated value of each weighted metric (missing
metrics contribute 0, unweighted metrics contribute nothing); permuting
the evaluators leaves `pre_llm_score` unchanged; and the default weight
map is `bm25_prox: 0.45, embed_sim: 0.40, sim_title: 0.10, title_bonus: 0.05`. -/
theorem evaluate_aggregation_weighted_sum :
    (∀ (w : List (String × ℚ)) (th : Thresholds) (evals : List (List (String × ℚ)))
        (cand : CandidateGateView) (job : JobConstraints) (k : String),
      lookupD (screeningEvaluate w th evals cand job).aggregate.scores k 0 =
        (evals.map (fun e => keySum e k)).sum) ∧
    (∀ (w : List (String × ℚ)) (th : Thresholds) (evals : List (List (String × ℚ)))
        (cand : CandidateGateView) (job : JobConstraints),
      (screeningEvaluate w th evals cand job).aggregate.preLlmScore =
        (w.map (fun mw => (evals.map (fun e => keySum e mw.1)).sum * mw.2)).sum) ∧
    (∀ (w : List (String × ℚ)) (th : Thresholds) (evals evals' : List (List (String × ℚ)))
        (cand cand' : CandidateGateView) (job job' : JobConstraints),
      evals.Perm evals' →
        (screeningEvaluate w th evals cand job).aggregate.preLlmScore =
          (screeningEvaluate w th evals' cand' job').aggregate.preLlmScore) ∧
    defaultWeights = [("bm25_prox", 0.45), ("embed_sim", 0.40),
      ("sim_title", 0.10), ("title_bonus", 0.05)] := by
  have hkey : ∀ (evals : List (List (String × ℚ))) (k : String),
      lookupD (aggregateScores evals) k 0 = (evals.map (fun e => keySum e k)).sum :=
    lookupD_aggregateScores
  have hpre : ∀ (w : List (String × ℚ)) (evals : List (List (String × ℚ))),
      computeWeightedScore w (aggregateScores evals) =
        (w.map (fun mw => (evals.map (fun e => keySum e mw.1)).sum * mw.2)).sum := by
    intro w evals
    unfold computeWeightedScore
    congr 1
    exact List.map_congr_left (fun mw _ => by rw [hkey])
  refine ⟨fun w th evals cand job k => ?_, fun w th evals cand job => ?_,
    fun w th evals evals' cand cand' job job' hperm => ?_, rfl⟩
  · simpa using hkey evals k
  · simpa using hpre w evals
  · simp only [screeningEvaluate_aggregate_preLlmScore, hpre]
    congr 1
    exact List.map_congr_left (fun mw _ => by
      rw [List.Perm.sum_eq (List.Perm.map (fun e => keySum e mw.1) hperm)])

/-- Witness for C2's permutation clause at a concrete pair of evaluator
score lists. -/
theorem evaluate_aggregation_weighted_sum_witness :
    (screeningEvaluate defaultWeights defaultThresholds
        [[("bm25_prox", 1)], [("embed_sim", 2)]]
        ⟨[], none, none, none, none⟩ ⟨[], [], none, none⟩).aggregate.preLlmScore =
      (screeningEvaluate defaultWeights defaultThresholds
        [[("embed_sim", 2)], [("bm25_prox", 1)]]
        ⟨[], none, none, none, none⟩ ⟨[], [], none, none⟩).aggregate.preLlmScore := by
  exact evaluate_aggregation_weighted_sum.2.2.1 defaultWeights defaultThresholds
    [[("bm25_prox", 1)], [("embed_sim", 2)]] [[("embed_sim", 2)], [("bm25_prox", 1)]]
    ⟨[], none, none, none, none⟩ ⟨[], none, none, none, none⟩
    ⟨[], [], none, none⟩ ⟨[], [], none, none⟩ (by decide)

/-- **C7 (code evaluated at the divergence).** The spec's `DecisionSummary`
field list contains `hard_gate_details` and `ScreeningPipeline.run` reads
that attribute from every outcome's decision, but the `DecisionSummary`
dataclass in the source has no such field. -/
theorem decisionSummary_missing_hard_gate_details :
    "hard_gate_details" ∈ specDecisionSummaryFields ∧
    "hard_gate_details" ∈ pipelineDecisionAttrsRead ∧
    "hard_gate_details" ∉ decisionSummaryFields ∧
    decisionSummaryFields ≠ specDecisionSummaryFields := by
  refine ⟨?_, ?_, ?_, ?_⟩ <;> decide

/-- **C8 (amended).** Result normalization raises iff `method` is missing
or the `scores` value is truthy and not a map; a falsy `scores` value is
replaced by the empty map and the payload is accepted (contributing
nothing to the aggregate). -/
theorem normalizeResult_rejects_iff :
    ∀ p : RawResult,
      (isError (normalizeResult p) = true ↔
        p.method = none ∨ (p.scores.truthy = true ∧ p.scores.isDict = false)) ∧
      (p.scores.truthy = false →
        ∀ m : String, p.method = some m → normalizeResult p = Except.ok (m, [])) := by
  intro p
  constructor
  · cases hm : p.method with
    | none => simp [normalizeResult, isError, hm]
    | some m =>
        cases hs : p.scores with
        | pnone => simp [normalizeResult, isError, hm, hs, PyVal.truthy, PyVal.isDict]
        | pstr s =>
            by_cases hempty : s = "" <;>
              simp [normalizeResult, isError, hm, hs, PyVal.truthy, PyVal.isDict, hempty]
        | pnum q =>
            by_cases hz : q = 0 <;>
              simp [normalizeResult, isError, hm, hs, PyVal.truthy, PyVal.isDict, hz]
        | plist xs =>
            cases xs <;> simp [normalizeResult, isError, hm, hs, PyVal.truthy, PyVal.isDict]
        | pdict xs =>
            cases xs <;> simp [normalizeResult, isError, hm, hs, PyVal.truthy, PyVal.isDict]
  · intro hfalsy m hm
    simp [normalizeResult, hm, hfalsy]

/-- Witness for C8 at a concrete payload: `scores = 0.0` is falsy, so the
payload is accepted with an empty score map. -/
theorem normalizeResult_rejects_iff_witness :
    normalizeResult { method := some "stub", scores := PyVal.pnum 0 } =
      Except.ok ("stub", []) ∧
    isError (normalizeResult { method := none, scores := PyVal.pdict [] }) = true := by
  constructor
  · exact (normalizeResult_rejects_iff
      { method := some "stub", scores := PyVal.pnum 0 }).2 (by decide) "stub" rfl
  · exact ((normalizeResult_rejects_iff
      { method := none, scores := PyVal.pdict [] }).1).mpr (Or.inl rfl)

/-- **C8 counterexample to the claim as stated.** The payload
`{"method": "stub", "scores": []}` has a non-map `scores` value, which
the claim says is rejected, yet normalization accepts it (the falsy value
is coerced to `{}` by `payload.get("scores") or {}`). -/
theorem normalizeResult_claim_counterexample :
    claimRejects { method := some "stub", scores := PyVal.plist [] } = true ∧
    normalizeResult { method := some "stub", scores := PyVal.plist [] } =
      Except.ok ("stub", []) := by
  constructor <;> rfl

/-- **C10.** A candidate stating no desired-salary bound always passes the
`salary_ok` hard gate (whether or not the job carries a salary range), so
the gate can only fail for candidates stating at least one bound; the
gate's flag in the hard-gate dict is exactly `_salary_ok`'s verdict. -/
theorem salaryOk_requires_stated_bound :
    ∀ (cand : CandidateGateView) (sro : Option SalaryRange),
      (cand.desiredMinJpy = none → cand.desiredMaxJpy = none → salaryOk cand sro = true) ∧
      (salaryOk cand sro = false →
        ¬(cand.desiredMinJpy = none ∧ cand.desiredMaxJpy = none)) ∧
      (∀ job : JobConstraints, job.salaryRange = sro →
        ("salary_ok", salaryOk cand sro) ∈ evaluateHardGates cand job) := by
  intro cand sro
  have hpass : cand.desiredMinJpy = none → cand.desiredMaxJpy = none →
      salaryOk cand sro = true := by
    intro hmin hmax
    unfold salaryOk
    cases sro with
    | none => rfl
    | some sr =>
        cases hsrmin : sr.minJpy <;> cases hsrmax : sr.maxJpy <;>
          simp [hmin, hmax, hsrmin, hsrmax]
  refine ⟨hpass, ?_, ?_⟩
  · intro hfail ⟨hmin, hmax⟩
    rw [hpass hmin hmax] at hfail
    simp at hfail
  · intro job hjob
    simp [evaluateHardGates, hjob]

/-- Witness for C10 at a concrete candidate and job salary range. -/
theorem salaryOk_requires_stated_bound_witness :
    salaryOk ⟨[], none, none, none, none⟩
      (some ⟨some 7000000, some 9000000⟩) = true := by
  exact (salaryOk_requires_stated_bound ⟨[], none, none, none, none⟩
    (some ⟨some 7000000, some 9000000⟩)).1 rfl rfl

/-! ## Salary evaluator

Embedding of `src/hrscreening/core/evaluators/salary.py`, from the
validated profile's desired-salary bounds and the job's salary range.
Only the fields the claims observe (`passes`, the emitted `salary_pass`
score, and the metadata `status`) are carried in the result.
-/

/-- `SalaryEvaluator._candidate_range`: absent bounds collapse to `none`,
a single bound expands to a zero-width range, reversed bounds are swapped. -/
def candidateRange (dmin dmax : Option ℤ) : Option (ℤ × ℤ) :=
  match dmin, dmax with
  | none, none => none
  | some lo, none => some (lo, lo)
  | none, some hi => some (hi, hi)
  | some lo, some hi => if hi < lo then some (hi, lo) else some (lo, hi)

/-- `SalaryEvaluator._job_range`. -/
def jobRangeOf (sro : Option SalaryRange) : Option (Option ℤ × Option ℤ) :=
  match sro with
  | none => none
  | some sr => some (sr.minJpy, sr.maxJpy)

/-- `SalaryEvaluator._ranges_overlap` on the candidate range and the
tolerance-expanded job range: an absent job bound falls back to the
corresponding candidate bound (the open-ended case). -/
def rangesOverlap (cand : ℤ × ℤ) (jobMin jobMax : Option ℚ) : Bool :=
  let lowerBound : ℚ := jobMin.getD (cand.1 : ℚ)
  let upperBound : ℚ := jobMax.getD (cand.2 : ℚ)
  decide (lowerBound ≤ (cand.2 : ℚ) ∧ (cand.1 : ℚ) ≤ upperBound)

/-- The slice of `SalaryEvaluator._build_response` the claims observe. -/
structure SalaryResult where
  passes : Bool
  salaryPass : ℚ
  status : String
  deriving DecidableEq, Repr

/-- `SalaryEvaluator.evaluate`: both ranges absent-or-not decides between
the `insufficient_data` early return (which carries `pass_score=0.5`) and
the overlap test against the job range expanded by `±tol` per present
bound. -/
def salaryEvaluate (dmin dmax : Option ℤ) (sro : Option SalaryRange) (tol : ℚ) :
    SalaryResult :=
  match candidateRange dmin dmax, jobRangeOf sro with
  | some cr, some jr =>
      let expandedMin := jr.1.map (fun v => (v : ℚ) * (1 - tol))
      let expandedMax := jr.2.map (fun v => (v : ℚ) * (1 + tol))
      let passes := rangesOverlap cr expandedMin expandedMax
      { passes := passes
        salaryPass := if passes then 1 else 0
        status := if passes then "within_tolerance" else "out_of_range" }
  | _, _ =>
      { passes := true
        salaryPass := 0.5
        status := "insufficient_data" }

/-- **C3 (code evaluated at the failing input).** With no stated desired
salary and a job range of 7-10M yen (the repository's own
`test_salary_missing_candidate_range_passes_by_default` input), the
evaluator returns a passing `insufficient_data` result — but emits
`salary_pass = 0.5`, not the 1.0 the claim (and that test) require; on
inputs where both ranges exist the emitted score is 1.0/0.0 as claimed. -/
theorem salaryEvaluate_insufficient_data_score :
    (salaryEvaluate none none (some ⟨some 7000000, some 10000000⟩) 0.1).passes = true ∧
    (salaryEvaluate none none (some ⟨some 7000000, some 10000000⟩) 0.1).status =
      "insufficient_data" ∧
    (salaryEvaluate none none (some ⟨some 7000000, some 10000000⟩) 0.1).salaryPass = 0.5 ∧
    (salaryEvaluate none none (some ⟨some 7000000, some 10000000⟩) 0.1).salaryPass ≠ 1 ∧
    (salaryEvaluate (some 8000000) (some 10000000)
      (some ⟨some 7000000, some 12000000⟩) 0.1).salaryPass = 1 ∧
    (salaryEvaluate (some 15000000) (some 16000000)
      (some ⟨some 7000000, some 9000000⟩) 0.1).salaryPass = 0 := by
  refine ⟨rfl, rfl, rfl, ?_, ?_, ?_⟩ <;>
    simp [salaryEvaluate, candidateRange, jobRangeOf, rangesOverlap] <;> norm_num

/-! ## Candidate schema validation (field-shape level)

Embedding of the pydantic models in `src/hrscreening/schemas/candidate.py`
at the level of attribute names: a model with `extra="forbid"` accepts an
input iff every supplied attribute is a declared field; `extra="allow"`
places no constraint on unknown attribute names.
-/

/-- Declared fields of `CandidateConstraints` (`extra="forbid"`). -/
def candidateConstraintsFields : List String := ["language", "location", "visa"]

/-- Declared fields of `ContactInfo` (`extra="forbid"`). -/
def contactInfoFields : List String := ["email", "phone"]

/-- Modelled from the spec: the constraint-object field list the claim
gives (`{language[], location[], visa?, can_relocate?, remote_ok?}`). -/
def claimConstraintsFields : List String :=
  ["language", "location", "visa", "can_relocate", "remote_ok"]

/-- Whether `CandidateConstraints.model_validate` accepts an input with
the given attribute names. -/
def constraintsAccepts (attrs : List String) : Bool :=
  attrs.all (fun a => candidateConstraintsFields.contains a)

/-- Whether `ContactInfo.model_validate` accepts the given attributes. -/
def contactAccepts (attrs : List String) : Bool :=
  attrs.all (fun a => contactInfoFields.contains a)

/-- Whether `CandidateProfile.model_validate` accepts an input, at the
attribute-name level: the top level is `extra="allow"` so arbitrary extra
attribute names pass, while the nested `constraints` and `contact`
objects (when supplied) must carry only their declared fields. -/
def candidateProfileAccepts (extraTopAttrs : List String)
    (constraintsAttrs : Option (List String)) (contactAttrs : Option (List String)) : Bool :=
  (match constraintsAttrs with
   | none => true
   | some attrs => constraintsAccepts attrs) &&
  (match contactAttrs with
   | none => true
   | some attrs => contactAccepts attrs) &&
  (extraTopAttrs.all (fun _ => true))

/-- **C9 counterexample to the claim as stated.** A constraints object
carrying `can_relocate` (a field the claim says is accepted) is rejected
by `CandidateConstraints` (`extra="forbid"` with only `language`,
`location`, `visa` declared), failing the whole profile. -/
theorem candidate_constraints_claim_counterexample :
    "can_relocate" ∈ claimConstraintsFields ∧
    "remote_ok" ∈ claimConstraintsFields ∧
    constraintsAccepts ["language", "can_relocate"] = false ∧
    candidateProfileAccepts ["unknown_top_attr"]
      (some ["language", "can_relocate"]) none = false := by
  refine ⟨?_, ?_, ?_, ?_⟩ <;> decide

/-- **C9 (amended).** `CandidateProfile` validation accepts unknown
top-level attribute names but rejects unknown attributes inside the
nested `constraints` (and `contact`) objects; the optional constraints
object accepts exactly the fields `language[]`, `location[]`, `visa?` —
`can_relocate` and `remote_ok` are not declared and are rejected. -/
theorem candidateProfile_validation_rule :
    (∀ (topAttrs : List String),
      candidateProfileAccepts topAttrs none none = true) ∧
    (∀ (topAttrs attrs : List String),
      candidateProfileAccepts topAttrs (some attrs) none = true ↔
        ∀ a ∈ attrs, a ∈ candidateConstraintsFields) ∧
    ("can_relocate" ∉ candidateConstraintsFields ∧
     "remote_ok" ∉ candidateConstraintsFields) := by
  refine ⟨fun topAttrs => ?_, fun topAttrs attrs => ?_, by decide, by decide⟩
  · simp [candidateProfileAccepts]
  · simp [candidateProfileAccepts, constraintsAccepts, List.all_eq_true]

/-- Witness for C9 at concrete attribute lists. -/
theorem candidateProfile_validation_rule_witness :
    candidateProfileAccepts ["some_unknown"] (some ["language", "visa"]) none = true := by
  exact (candidateProfile_validation_rule.2.1 ["some_unknown"] ["language", "visa"]).mpr
    (by decide)

/-! ## Tenure evaluator

Embedding of `src/hrscreening/core/evaluators/tenure.py` from the point
where `_compute_per_experience` has produced the kept experiences: one
record per experience whose `start` parsed and whose resolved `end` is
not before it, carrying the duration in months, the resolved end date
(as a totally ordered key) and the contractor flag
(`employment_type` case-insensitively in the contract set). -/

/-- `TenureConfig` (the threshold fields; the contract-type set is folded
into each kept experience's `isContract` flag). -/
structure TenureConfig where
  averageThresholdMonths : ℚ
  recentShortThresholdMonths : ℚ
  contractAverageThresholdMonths : ℚ
  recentWindow : ℕ
  deriving DecidableEq, Repr

/-- The `TenureConfig` defaults. -/
def defaultTenureConfig : TenureConfig :=
  { averageThresholdMonths := 18
    recentShortThresholdMonths := 12
    contractAverageThresholdMonths := 12
    recentWindow := 3 }

/-- A kept (date-parseable, non-inverted) experience as normalized by
`_compute_per_experience`. -/
structure KeptExperience where
  months : ℚ
  endKey : ℤ
  isContract : Bool
  deriving DecidableEq, Repr

/-- `normalized.sort(key=end_date, reverse=True)`: stable sort, most
recent end date first. -/
def sortByEndDesc (l : List KeptExperience) : List KeptExperience :=
  l.mergeSort (fun a b => decide (b.endKey ≤ a.endKey))

/-- `TenureEvaluator._average_months`: 0 on an empty list. -/
def avgMonths (l : List KeptExperience) : ℚ :=
  if l = [] then 0 else (l.map (fun e => e.months)).sum / (l.length : ℚ)

/-- `TenureEvaluator._count_recent_short` over the sorted list. -/
def countRecentShort (cfg : TenureConfig) (sorted : List KeptExperience) : ℕ :=
  ((sorted.take cfg.recentWindow).filter
    (fun e => decide (e.months < cfg.recentShortThresholdMonths))).length

/-- The slice of `TenureEvaluator.evaluate`'s payload the claims observe. -/
structure TenureResult where
  tenurePass : ℚ
  tenureAvgMonths : ℚ
  isJobHopper : Bool
  isContractProfile : Bool
  contractAverageMonths : ℚ
  passesContractRule : Bool
  deriving DecidableEq, Repr

/-- `TenureEvaluator.evaluate` on the kept experiences. -/
def tenureEvaluate (cfg : TenureConfig) (exps : List KeptExperience) : TenureResult :=
  let sorted := sortByEndDesc exps
  let averageMonths := avgMonths sorted
  let recentShortCount := countRecentShort cfg sorted
  let isJobHopper :=
    decide (sorted ≠ []) && decide (averageMonths < cfg.averageThresholdMonths) &&
      decide (2 ≤ recentShortCount)
  let isContractProfile := decide (sorted ≠ []) && sorted.all (fun e => e.isContract)
  let contractAvg := avgMonths (sorted.filter (fun e => e.isContract))
  let passesContractRule :=
    isContractProfile && decide (cfg.contractAverageThresholdMonths ≤ contractAvg)
  let passes := !isJobHopper || passesContractRule
  { tenurePass := if passes then 1 else 0
    tenureAvgMonths := averageMonths
    isJobHopper := isJobHopper
    isContractProfile := isContractProfile
    contractAverageMonths := contractAvg
    passesContractRule := passesContractRule }

theorem sortByEndDesc_perm (l : List KeptExperience) : (sortByEndDesc l).Perm l :=
  List.mergeSort_perm l _

theorem avgMonths_sortByEndDesc (l : List KeptExperience) :
    avgMonths (sortByEndDesc l) = avgMonths l := by
  have hperm := sortByEndDesc_perm l
  unfold avgMonths
  rw [List.Perm.sum_eq (hperm.map (fun e => e.months)), hperm.length_eq]
  by_cases h : l = []
  · subst h
    rw [List.Perm.eq_nil hperm]
  · rw [if_neg (fun hs => h (List.Perm.eq_nil (hs ▸ hperm).symm)), if_neg h]

theorem sortByEndDesc_ne_nil (l : List KeptExperience) (h : l ≠ []) :
    sortByEndDesc l ≠ [] := by
  intro hs
  exact h (List.Perm.eq_nil ((hs ▸ sortByEndDesc_perm l) : ([] : List KeptExperience).Perm l).symm)

theorem sortByEndDesc_all (l : List KeptExperience) (p : KeptExperience → Bool) :
    (sortByEndDesc l).all p = l.all p := by
  have hperm := sortByEndDesc_perm l
  by_cases h : ∀ e ∈ l, p e = true
  · have h1 : l.all p = true := List.all_eq_true.mpr h
    have h2 : (sortByEndDesc l).all p = true :=
      List.all_eq_true.mpr (fun e he => h e (hperm.mem_iff.mp he))
    rw [h1, h2]
  · push_neg at h
    obtain ⟨e, he, hpe⟩ := h
    have h1 : l.all p = false := by
      rw [Bool.eq_false_iff]
      intro hall
      exact hpe (List.all_eq_true.mp hall e he)
    have h2 : (sortByEndDesc l).all p = false := by
      rw [Bool.eq_false_iff]
      intro hall
      exact hpe (List.all_eq_true.mp hall e (hperm.mem_iff.mpr he))
    rw [h1, h2]

@[simp] theorem tenureEvaluate_isJobHopper (cfg : TenureConfig) (exps : List KeptExperience) :
    (tenureEvaluate cfg exps).isJobHopper =
      (decide (sortByEndDesc exps ≠ []) &&
        decide (avgMonths (sortByEndDesc exps) < cfg.averageThresholdMonths) &&
        decide (2 ≤ countRecentShort cfg (sortByEndDesc exps))) := rfl

@[simp] theorem tenureEvaluate_isContractProfile (cfg : TenureConfig)
    (exps : List KeptExperience) :
    (tenureEvaluate cfg exps).isContractProfile =
      (decide (sortByEndDesc exps ≠ []) &&
        (sortByEndDesc exps).all (fun e => e.isContract)) := rfl

@[simp] theorem tenureEvaluate_contractAverageMonths (cfg : TenureConfig)
    (exps : List KeptExperience) :
    (tenureEvaluate cfg exps).contractAverageMonths =
      avgMonths ((sortByEndDesc exps).filter (fun e => e.isContract)) := rfl

@[simp] theorem tenureEvaluate_passesContractRule (cfg : TenureConfig)
    (exps : List KeptExperience) :
    (tenureEvaluate cfg exps).passesContractRule =
      ((tenureEvaluate cfg exps).isContractProfile &&
        decide (cfg.contractAverageThresholdMonths ≤
          (tenureEvaluate cfg exps).contractAverageMonths)) := rfl

theorem tenureEvaluate_tenurePass (cfg : TenureConfig) (exps : List KeptExperience) :
    (tenureEvaluate cfg exps).tenurePass =
      if (!(tenureEvaluate cfg exps).isJobHopper ||
          (tenureEvaluate cfg exps).passesContractRule) = true then (1 : ℚ) else 0 := rfl

theorem tenureEvaluate_tenurePass_eq_one_iff (cfg : TenureConfig)
    (exps : List KeptExperience) :
    (tenureEvaluate cfg exps).tenurePass = 1 ↔
      (!(tenureEvaluate cfg exps).isJobHopper ||
        (tenureEvaluate cfg exps).passesContractRule) = true := by
  rw [tenureEvaluate_tenurePass]
  split
  · simp_all
  · simp_all

theorem tenureEvaluate_tenurePass_eq_zero_iff (cfg : TenureConfig)
    (exps : List KeptExperience) :
    (tenureEvaluate cfg exps).tenurePass = 0 ↔
      ¬(tenureEvaluate cfg exps).tenurePass = 1 := by
  rw [tenureEvaluate_tenurePass]
  split
  · norm_num
  · norm_num

/-- **C4.** For a candidate with at least one kept experience (default
config): the job-hopper flag holds iff the average kept duration is below
18 months and at least 2 of the 3 most recent experiences (by end date,
descending) are shorter than 12 months; `tenure_pass` is 1.0 iff the
candidate is not a hopper or every kept experience is contractor-typed
with contractor-only average ≥ 12 months, and 0.0 otherwise — so an
all-contractor profile meeting the contractor average passes even when
flagged a hopper. -/
theorem tenure_hopper_rule :
    ∀ exps : List KeptExperience, exps ≠ [] →
      ((tenureEvaluate defaultTenureConfig exps).isJobHopper = true ↔
        (exps.map (fun e => e.months)).sum / (exps.length : ℚ) < 18 ∧
          2 ≤ (((sortByEndDesc exps).take 3).filter
            (fun e => decide (e.months < 12))).length) ∧
      ((tenureEvaluate defaultTenureConfig exps).tenurePass = 1 ↔
        (tenureEvaluate defaultTenureConfig exps).isJobHopper = false ∨
          (exps.all (fun e => e.isContract) = true ∧
            12 ≤ (tenureEvaluate defaultTenureConfig exps).contractAverageMonths)) ∧
      ((tenureEvaluate defaultTenureConfig exps).tenurePass = 0 ↔
        ¬((tenureEvaluate defaultTenureConfig exps).isJobHopper = false ∨
          (exps.all (fun e => e.isContract) = true ∧
            12 ≤ (tenureEvaluate defaultTenureConfig exps).contractAverageMonths))) ∧
      (exps.all (fun e => e.isContract) = true →
        12 ≤ (tenureEvaluate defaultTenureConfig exps).contractAverageMonths →
        (tenureEvaluate defaultTenureConfig exps).tenurePass = 1) := by
  intro exps hne
  have hsne : sortByEndDesc exps ≠ [] := sortByEndDesc_ne_nil exps hne
  have havg : avgMonths (sortByEndDesc exps) =
      (exps.map (fun e => e.months)).sum / (exps.length : ℚ) := by
    rw [avgMonths_sortByEndDesc]
    unfold avgMonths
    rw [if_neg hne]
  have hall : (sortByEndDesc exps).all (fun e => e.isContract) =
      exps.all (fun e => e.isContract) := sortByEndDesc_all exps _
  have hhop : (tenureEvaluate defaultTenureConfig exps).isJobHopper = true ↔
      (exps.map (fun e => e.months)).sum / (exps.length : ℚ) < 18 ∧
        2 ≤ (((sortByEndDesc exps).take 3).filter
          (fun e => decide (e.months < 12))).length := by
    simp [countRecentShort, defaultTenureConfig, havg, hsne]
  have hpcr : (tenureEvaluate defaultTenureConfig exps).passesContractRule = true ↔
      exps.all (fun e => e.isContract) = true ∧
        12 ≤ (tenureEvaluate defaultTenureConfig exps).contractAverageMonths := by
    rw [tenureEvaluate_passesContractRule, Bool.and_eq_true,
      tenureEvaluate_isContractProfile, Bool.and_eq_true, hall, decide_eq_true_eq,
      decide_eq_true_eq]
    constructor
    · rintro ⟨⟨-, hc⟩, ht⟩; exact ⟨hc, ht⟩
    · rintro ⟨hc, ht⟩; exact ⟨⟨hsne, hc⟩, ht⟩
  have hpassiff : (tenureEvaluate defaultTenureConfig exps).tenurePass = 1 ↔
      (tenureEvaluate defaultTenureConfig exps).isJobHopper = false ∨
        (exps.all (fun e => e.isContract) = true ∧
          12 ≤ (tenureEvaluate defaultTenureConfig exps).contractAverageMonths) := by
    rw [tenureEvaluate_tenurePass_eq_one_iff, Bool.or_eq_true, Bool.not_eq_true']
    exact or_congr Iff.rfl hpcr
  refine ⟨hhop, hpassiff, ?_, ?_⟩
  · rw [tenureEvaluate_tenurePass_eq_zero_iff, not_iff_not]
    exact hpassiff
  · intro hallc hth
    exact hpassiff.mpr (Or.inr ⟨hallc, hth⟩)

/-- Witness for C4: two 20-month contractor engagements. -/
theorem tenure_hopper_rule_witness :
    (tenureEvaluate defaultTenureConfig
      [⟨20, 100, true⟩, ⟨20, 50, true⟩]).tenurePass = 1 := by
  refine (tenure_hopper_rule [⟨20, 100, true⟩, ⟨20, 50, true⟩] (by decide)).2.2.2 ?_ ?_
  · decide
  · show (12 : ℚ) ≤ avgMonths (((sortByEndDesc _).filter _))
    simp [sortByEndDesc, List.mergeSort, avgMonths]
    norm_num

/-! ## BM25 proximity bonus

Embedding of `BM25ProximityEvaluator._proximity_bonus`
(`src/hrscreening/core/evaluators/bm25_proximity.py`), over a document's
token list and the (already expanded, duplicate-free at the call site)
query token list. -/

/-- The proximity parameters of `BM25ProximityConfig`. -/
structure ProximityConfig where
  alphaProximity : ℚ
  window : ℕ
  deriving DecidableEq, Repr

/-- Defaults: `alpha_proximity = 0.2`, `window = 8`. -/
def defaultProximityConfig : ProximityConfig := { alphaProximity := 0.2, window := 8 }

/-- `positions[token]`: occurrence indices of a token in the document, in
ascending order. -/
def tokenPositions (doc : List String) (t : String) : List ℕ :=
  (doc.enum.filter (fun p => decide (p.2 = t))).map Prod.fst

/-- `abs(pos - start_idx)` on naturals. -/
def natDist (a b : ℕ) : ℕ := max a b - min a b

/-- `min(token_positions, key=lambda pos: abs(pos - start_idx))`: the first
position attaining the minimal distance (Python `min` keeps the earliest
minimum; positions are ascending). Total with the anchor as the (never
reached in context) empty-list fallback. -/
def nearestPosition (ps : List ℕ) (anchor : ℕ) : ℕ :=
  match ps with
  | [] => anchor
  | p :: rest =>
      rest.foldl (fun best q => if natDist q anchor < natDist best anchor then q else best) p

/-- The span the source computes for one anchor occurrence:
`max_idx` starts at the anchor, is raised to the nearest occurrence of
every unique query token (choices before the anchor never lower it), and
the span is `max_idx - start_idx + 1`. -/
def anchorSpan (doc : List String) (uniq : List String) (anchor : ℕ) : ℕ :=
  (uniq.foldl (fun m t => max m (nearestPosition (tokenPositions doc t) anchor)) anchor)
    - anchor + 1

/-- The running minimum over anchor spans (`min_span = math.inf`, updated
by strict improvement), `none` playing the role of `inf`. -/
def foldMinSpan (spans : List ℕ) : Option ℕ :=
  spans.foldl
    (fun acc s =>
      match acc with
      | none => some s
      | some m => if s < m then some s else acc)
    none

/-- `BM25ProximityEvaluator._proximity_bonus`. -/
def proximityBonus (cfg : ProximityConfig) (doc query : List String) : ℚ :=
  if query.length ≤ 1 then 0
  else
    let uniq := query.dedup
    if uniq.any (fun t => (tokenPositions doc t).isEmpty) then 0
    else
      let anchors := uniq.flatMap (fun t => tokenPositions doc t)
      match foldMinSpan (anchors.map (anchorSpan doc uniq)) with
      | none => 0
      | some m => if m ≤ cfg.window then cfg.alphaProximity / (1 + (m : ℚ)) else 0

/-- Modelled from the claim's words: for one anchor occurrence, pick the
nearest occurrence of every query token and measure the full covering
span `hi − lo + 1` over the chosen occurrences (anchor included). -/
def claimSpanAt (doc : List String) (uniq : List String) (anchor : ℕ) : ℕ :=
  let chosen := anchor :: uniq.map (fun t => nearestPosition (tokenPositions doc t) anchor)
  (chosen.foldl max anchor) - (chosen.foldl min anchor) + 1

/-- Modelled from the claim's words: if every query token occurs at least
once, the bonus is `alpha / (1 + span)` for the minimal greedy-anchor
span (as `hi − lo + 1`) whenever that span is within the window, with no
special case for single-token queries. -/
def proximityBonusClaim (cfg : ProximityConfig) (doc query : List String) : ℚ :=
  let uniq := query.dedup
  if uniq.any (fun t => (tokenPositions doc t).isEmpty) then 0
  else
    match ((uniq.flatMap (fun t => tokenPositions doc t)).map (claimSpanAt doc uniq)).min? with
    | none => 0
    | some m => if m ≤ cfg.window then cfg.alphaProximity / (1 + (m : ℚ)) else 0

theorem foldMinSpan_eq_min? (spans : List ℕ) : foldMinSpan spans = spans.min? := by
  have gen : ∀ (l : List ℕ) (a : ℕ),
      l.foldl
        (fun acc s =>
          match acc with
          | none => some s
          | some m => if s < m then some s else acc)
        (some a) = some (l.foldl min a) := by
    intro l
    induction l with
    | nil => intro a; rfl
    | cons b t ih =>
        intro a
        simp only [List.foldl_cons]
        have hstep : (if b < a then some b else some a) = some (min a b) := by
          rcases le_or_lt a b with h | h
          · rw [if_neg (not_lt.mpr h), min_eq_left h]
          · rw [if_pos h, min_eq_right (le_of_lt h)]
        rw [hstep, ih]
  cases spans with
  | nil => rfl
  | cons a t =>
      simp only [foldMinSpan, List.foldl_cons, List.min?]
      exact gen t a

/-- **C5 counterexample to the claim as stated.** On the single-token
query `["a"]` over the document `["a"]` the token occurs and the claimed
minimal span is 1 ≤ window, so the claim demands `0.2 / 2`, yet the code
returns 0 (the `len(query_tokens) <= 1` early exit). On the query
`["a", "b"]` over `["b", "a"]` the claimed covering span `hi − lo + 1` is
2 (bonus `0.2 / 3`), but the code measures from the anchor only
(`max_idx − start_idx + 1`), finds span 1, and returns `0.2 / 2`. -/
theorem proximityBonus_claim_counterexample :
    proximityBonus defaultProximityConfig ["a"] ["a"] = 0 ∧
    proximityBonusClaim defaultProximityConfig ["a"] ["a"] = 0.2 / 2 ∧
    proximityBonus defaultProximityConfig ["b", "a"] ["a", "b"] = 0.2 / 2 ∧
    proximityBonusClaim defaultProximityConfig ["b", "a"] ["a", "b"] = 0.2 / 3 ∧
    (0.2 / 2 : ℚ) ≠ 0.2 / 3 ∧ (0 : ℚ) ≠ 0.2 / 2 := by
  refine ⟨rfl, ?_, ?_, ?_, by norm_num, by norm_num⟩ <;>
    · simp +decide only [proximityBonus, proximityBonusClaim, defaultProximityConfig,
        tokenPositions, claimSpanAt, anchorSpan, nearestPosition, natDist, foldMinSpan,
        List.dedup, List.pwFilter, List.enum, List.enumFrom, List.min?, List.flatMap,
        List.filter, List.foldl, List.map, List.any, List.isEmpty]
      norm_num

/-- **C5 (amended).** For queries of at least two tokens in which every
(deduplicated) query token occurs in the document, the proximity bonus is
`alpha_proximity / (1 + span)` when `span ≤ window` and 0 otherwise,
where `span` is the minimum over all anchor occurrences of the
anchor-relative measure `max_idx − start_idx + 1` (the furthest forward
chosen nearest occurrence; chosen occurrences before the anchor do not
extend the span). Queries with at most one token always get bonus 0, as
does any query with a token absent from the document. -/
theorem proximityBonus_rule :
    ∀ (doc query : List String),
      (∀ s : ℕ,
        2 ≤ query.length →
        (∀ t ∈ query.dedup, tokenPositions doc t ≠ []) →
        ((query.dedup.flatMap (fun t => tokenPositions doc t)).map
          (anchorSpan doc query.dedup)).min? = some s →
        proximityBonus defaultProximityConfig doc query =
          if s ≤ 8 then (0.2 : ℚ) / (1 + (s : ℚ)) else 0) ∧
      (query.length ≤ 1 → proximityBonus defaultProximityConfig doc query = 0) ∧
      ((∃ t ∈ query.dedup, tokenPositions doc t = []) →
        proximityBonus defaultProximityConfig doc query = 0) := by
  intro doc query
  refine ⟨fun s hlen hocc hmin => ?_, fun hshort => ?_, fun hmiss => ?_⟩
  · have hnshort : ¬ query.length ≤ 1 := by omega
    have hany : query.dedup.any (fun t => (tokenPositions doc t).isEmpty) = false := by
      rw [List.any_eq_false]
      intro t ht
      simp only [List.isEmpty_eq_true]
      exact hocc t ht
    unfold proximityBonus
    rw [if_neg hnshort, if_neg (by rw [hany]; exact Bool.false_ne_true)]
    simp only [foldMinSpan_eq_min?, hmin, defaultProximityConfig]
  · unfold proximityBonus
    rw [if_pos hshort]
  · obtain ⟨t, ht, hempty⟩ := hmiss
    unfold proximityBonus
    by_cases hshort : query.length ≤ 1
    · rw [if_pos hshort]
    · rw [if_neg hshort, if_pos]
      rw [List.any_eq_true]
      exact ⟨t, ht, by simp [hempty]⟩

/-- Witness for C5's amended rule on a two-token query where both tokens
occur adjacently: the minimal anchor span is 1 and the bonus is 0.1. -/
theorem proximityBonus_rule_witness :
    proximityBonus defaultProximityConfig ["x", "y"] ["x", "y"] =
      if (1 : ℕ) ≤ 8 then (0.2 : ℚ) / (1 + ((1 : ℕ) : ℚ)) else 0 := by
  exact (proximityBonus_rule ["x", "y"] ["x", "y"]).1 1 (by decide) (by decide) (by decide)

/-! ## Embedding similarity evaluator

Embedding of `src/hrscreening/core/evaluators/embedding_similarity.py`,
over the real numbers (the source uses `math.log` and `math.sqrt`).
TF-IDF vectors (`dict[str, float]`) are association lists; the inputs are
the token lists of the JD requirement texts, the candidate resume
entries, and the title texts on each side, after augmentation and
tokenization (one token list per non-empty raw text, so a side's raw
list is empty iff its token-list list is). -/

/-- `_cosine_similarity`'s dot product:
`sum(value * vec_b.get(token, 0.0) for token, value in vec_a.items())`. -/
noncomputable def dotProd (va vb : List (String × ℝ)) : ℝ :=
  (va.map (fun p => p.2 * lookupD vb p.1 0)).sum

/-- `sum(value * value for value in vec.values())`. -/
noncomputable def normSq (v : List (String × ℝ)) : ℝ :=
  (v.map (fun p => p.2 * p.2)).sum

/-- `EmbeddingSimilarityEvaluator._cosine_similarity`. -/
noncomputable def cosineSim (va vb : List (String × ℝ)) : ℝ :=
  if va = [] ∨ vb = [] then 0
  else if dotProd va vb = 0 then 0
  else if Real.sqrt (normSq va) = 0 ∨ Real.sqrt (normSq vb) = 0 then 0
  else dotProd va vb / (Real.sqrt (normSq va) * Real.sqrt (normSq vb))

/-- `EmbeddingSimilarityEvaluator._compute_idf` as a lookup function:
empty documents are skipped; tokens absent from every counted document
get the dict-miss default 0, others `log((1 + N) / (1 + df)) + 1`. -/
noncomputable def idfOf (docs : List (List String)) (t : String) : ℝ :=
  let counted := docs.filter (fun d => !d.isEmpty)
  let df := (counted.filter (fun d => d.contains t)).length
  if df = 0 then 0
  else Real.log ((1 + (counted.length : ℝ)) / (1 + (df : ℝ))) + 1

/-- `EmbeddingSimilarityEvaluator._tfidf_vector`: term frequency is the
count over the total token count, scaled by idf; only strictly positive
weights are kept (`if weight > 0`). Keys follow `Counter` iteration, one
entry per distinct token. -/
noncomputable def tfidfVector (idf : String → ℝ) (tokens : List String) :
    List (String × ℝ) :=
  if tokens = [] then []
  else
    (tokens.dedup.map
      (fun t => (t, ((tokens.count t : ℝ) / (tokens.length : ℝ)) * idf t))).filter
      (fun p => decide (0 < p.2))

/-- The unsorted `(jd_vec, resume_vec)` cosine matrix, flattened in the
source's row-major order. -/
noncomputable def embedSims (jdVecs resVecs : List (List (String × ℝ))) : List ℝ :=
  jdVecs.flatMap (fun jv => resVecs.map (fun rv => cosineSim jv rv))

/-- `_collect_evidence` restricted to the similarities the claims read:
keep the strictly positive cosines and sort them descending (stable). -/
noncomputable def evidenceSims (jdVecs resVecs : List (List (String × ℝ))) : List ℝ :=
  ((embedSims jdVecs resVecs).filter (fun s => decide (0 < s))).mergeSort
    (fun a b => decide (b ≤ a))

/-- `EmbeddingSimilarityEvaluator._title_similarity`. -/
noncomputable def titleSimilarity (idf : String → ℝ)
    (jobTitleToks candTitleToks : List (List String)) : ℝ :=
  if jobTitleToks = [] then 0
  else if candTitleToks = [] then 0
  else
    ((jobTitleToks.map (tfidfVector idf)).flatMap
      (fun jv => (candTitleToks.map (tfidfVector idf)).map
        (fun cv => cosineSim jv cv))).foldl max 0

/-- `round(x, 4)` in exact arithmetic. -/
noncomputable def round4 (x : ℝ) : ℝ := ((round (x * 10000) : ℤ) : ℝ) / 10000

/-- `EmbeddingSimilarityEvaluator.evaluate`, returning the
`(embed_sim, sim_title)` score pair. -/
noncomputable def embedEvaluate (jdToks resumeToks jobTitleToks candTitleToks :
    List (List String)) (topK : ℕ) : ℝ × ℝ :=
  if jdToks = [] then (0, 0)
  else if resumeToks = [] then (0, 0)
  else if (!jdToks.any (fun d => !d.isEmpty)) || (!resumeToks.any (fun d => !d.isEmpty))
    then (0, 0)
  else
    let idf := idfOf (jdToks ++ resumeToks)
    let jdVecs := jdToks.map (tfidfVector idf)
    let resVecs := resumeToks.map (tfidfVector idf)
    let evidence := evidenceSims jdVecs resVecs
    if evidence = [] then (0, 0)
    else
      let avg := (evidence.take topK).sum / ((min evidence.length topK : ℕ) : ℝ)
      (round4 avg, round4 (titleSimilarity idf jobTitleToks candTitleToks))

theorem lookupD_nonneg (v : List (String × ℝ)) (t : String)
    (h : ∀ p ∈ v, 0 ≤ p.2) : 0 ≤ lookupD v t 0 := by
  induction v with
  | nil => exact le_refl 0
  | cons p rest ih =>
      rw [lookupD_cons]
      split
      · exact h p (List.mem_cons_self p rest)
      · exact ih (fun q hq => h q (List.mem_cons_of_mem p hq))

theorem dotProd_nonneg (va vb : List (String × ℝ))
    (ha : ∀ p ∈ va, 0 ≤ p.2) (hb : ∀ p ∈ vb, 0 ≤ p.2) : 0 ≤ dotProd va vb := by
  apply List.sum_nonneg
  intro x hx
  obtain ⟨p, hp, rfl⟩ := List.mem_map.mp hx
  exact mul_nonneg (ha p hp) (lookupD_nonneg vb p.1 hb)

theorem normSq_nonneg (v : List (String × ℝ)) : 0 ≤ normSq v := by
  apply List.sum_nonneg
  intro x hx
  obtain ⟨p, hp, rfl⟩ := List.mem_map.mp hx
  exact mul_self_nonneg p.2

/-- Association-list sums with duplicate-free keys are Finset sums over
the key set, with values read through `lookupD`. -/
theorem sum_map_eq_finset_sum (v : List (String × ℝ)) (hnd : (keysOf v).Nodup)
    (g : String → ℝ → ℝ) :
    (v.map (fun p => g p.1 p.2)).sum =
      ∑ t ∈ (keysOf v).toFinset, g t (lookupD v t 0) := by
  induction v with
  | nil => simp [keysOf]
  | cons p rest ih =>
      have hnd' : (keysOf rest).Nodup := by
        simpa [keysOf] using hnd.of_cons
      have hpnotin : p.1 ∉ keysOf rest := by
        have := hnd
        simp only [keysOf, List.map_cons, List.nodup_cons] at this
        simpa [keysOf] using this.1
      have hfinset : (keysOf (p :: rest)).toFinset =
          insert p.1 (keysOf rest).toFinset := by
        simp [keysOf]
      rw [List.map_cons, List.sum_cons, hfinset,
        Finset.sum_insert (by simpa using hpnotin)]
      congr 1
      · rw [lookupD_cons, if_pos rfl]
      · rw [ih hnd']
        apply Finset.sum_congr rfl
        intro t ht
        have htne : ¬(p.1 = t) := by
          intro he
          exact hpnotin (he ▸ List.mem_toFinset.mp ht)
        rw [lookupD_cons, if_neg htne]

theorem lookupD_zero_of_not_mem_toFinset (v : List (String × ℝ)) (t : String)
    (h : t ∉ (keysOf v).toFinset) : lookupD v t 0 = 0 :=
  lookupD_eq_default_of_not_mem v t 0 (fun hm => h (List.mem_toFinset.mpr hm))

/-- Cauchy–Schwarz for the source's dict-based dot product: with
duplicate-free keys the dot product is bounded by the product of norms. -/
theorem dotProd_le_sqrt_mul_sqrt (va vb : List (String × ℝ))
    (hnda : (keysOf va).Nodup) (hndb : (keysOf vb).Nodup)
    (ha : ∀ p ∈ va, 0 ≤ p.2) (hb : ∀ p ∈ vb, 0 ≤ p.2) :
    dotProd va vb ≤ Real.sqrt (normSq va) * Real.sqrt (normSq vb) := by
  classical
  have hdot : dotProd va vb = ∑ t ∈ (keysOf va).toFinset ∪ (keysOf vb).toFinset,
      lookupD va t 0 * lookupD vb t 0 := by
    rw [dotProd, sum_map_eq_finset_sum va hnda (fun t x => x * lookupD vb t 0)]
    apply Finset.sum_subset Finset.subset_union_left
    intro t _ htna
    rw [lookupD_zero_of_not_mem_toFinset va t htna, zero_mul]
  have hsqa : ∀ t ∈ (keysOf va).toFinset,
      lookupD va t 0 * lookupD va t 0 = lookupD va t 0 ^ 2 :=
    fun t _ => (pow_two _).symm
  have hsqb : ∀ t ∈ (keysOf vb).toFinset,
      lookupD vb t 0 * lookupD vb t 0 = lookupD vb t 0 ^ 2 :=
    fun t _ => (pow_two _).symm
  have hna : normSq va = ∑ t ∈ (keysOf va).toFinset ∪ (keysOf vb).toFinset,
      lookupD va t 0 ^ 2 := by
    rw [normSq, sum_map_eq_finset_sum va hnda (fun _ x => x * x),
      Finset.sum_congr rfl hsqa]
    apply Finset.sum_subset Finset.subset_union_left
    intro t _ htna
    rw [lookupD_zero_of_not_mem_toFinset va t htna]
    ring
  have hnb : normSq vb = ∑ t ∈ (keysOf va).toFinset ∪ (keysOf vb).toFinset,
      lookupD vb t 0 ^ 2 := by
    rw [normSq, sum_map_eq_finset_sum vb hndb (fun _ x => x * x),
      Finset.sum_congr rfl hsqb]
    apply Finset.sum_subset Finset.subset_union_right
    intro t _ htnb
    rw [lookupD_zero_of_not_mem_toFinset vb t htnb]
    ring
  have hcs : (∑ t ∈ (keysOf va).toFinset ∪ (keysOf vb).toFinset,
        lookupD va t 0 * lookupD vb t 0) ^ 2 ≤
      (∑ t ∈ (keysOf va).toFinset ∪ (keysOf vb).toFinset, lookupD va t 0 ^ 2) *
        ∑ t ∈ (keysOf va).toFinset ∪ (keysOf vb).toFinset, lookupD vb t 0 ^ 2 :=
    Finset.sum_mul_sq_le_sq_mul_sq _ (fun t => lookupD va t 0) (fun t => lookupD vb t 0)
  have hdotnn : 0 ≤ dotProd va vb := dotProd_nonneg va vb ha hb
  calc dotProd va vb = Real.sqrt ((dotProd va vb) ^ 2) := (Real.sqrt_sq hdotnn).symm
    _ ≤ Real.sqrt (normSq va * normSq vb) := by
        apply Real.sqrt_le_sqrt
        rw [hdot, hna, hnb]
        exact hcs
    _ = Real.sqrt (normSq va) * Real.sqrt (normSq vb) :=
        Real.sqrt_mul (normSq_nonneg va) _

/-- The cosine is within `[0, 1]` for vectors with duplicate-free keys and
non-negative values (every TF-IDF vector satisfies both). -/
theorem cosineSim_mem_unit (va vb : List (String × ℝ))
    (hnda : (keysOf va).Nodup) (hndb : (keysOf vb).Nodup)
    (ha : ∀ p ∈ va, 0 ≤ p.2) (hb : ∀ p ∈ vb, 0 ≤ p.2) :
    0 ≤ cosineSim va vb ∧ cosineSim va vb ≤ 1 := by
  unfold cosineSim
  split_ifs with h1 h2 h3
  · exact ⟨le_refl 0, zero_le_one⟩
  · exact ⟨le_refl 0, zero_le_one⟩
  · exact ⟨le_refl 0, zero_le_one⟩
  · push_neg at h3
    have hna : 0 < Real.sqrt (normSq va) :=
      lt_of_le_of_ne (Real.sqrt_nonneg _) (Ne.symm h3.1)
    have hnb : 0 < Real.sqrt (normSq vb) :=
      lt_of_le_of_ne (Real.sqrt_nonneg _) (Ne.symm h3.2)
    constructor
    · exact div_nonneg (dotProd_nonneg va vb ha hb) (le_of_lt (mul_pos hna hnb))
    · rw [div_le_one (mul_pos hna hnb)]
      exact dotProd_le_sqrt_mul_sqrt va vb hnda hndb ha hb

/-- Keys of a TF-IDF vector are duplicate-free. -/
theorem tfidfVector_keys_nodup (idf : String → ℝ) (tokens : List String) :
    (keysOf (tfidfVector idf tokens)).Nodup := by
  unfold tfidfVector
  split
  · simp [keysOf]
  · have hsub : keysOf ((tokens.dedup.map
        (fun t => (t, ((tokens.count t : ℝ) / (tokens.length : ℝ)) * idf t))).filter
        (fun p => decide (0 < p.2))) |>.Sublist
        (keysOf (tokens.dedup.map
          (fun t => (t, ((tokens.count t : ℝ) / (tokens.length : ℝ)) * idf t)))) :=
      List.Sublist.map Prod.fst (List.filter_sublist _)
    apply hsub.nodup
    rw [keysOf, List.map_map]
    have hcomp : (Prod.fst ∘ fun t =>
        (t, ((tokens.count t : ℝ) / (tokens.length : ℝ)) * idf t)) = fun t => t := rfl
    rw [hcomp]
    simpa using tokens.nodup_dedup

/-- Values of a TF-IDF vector are (strictly, hence weakly) positive. -/
theorem tfidfVector_vals_nonneg (idf : String → ℝ) (tokens : List String) :
    ∀ p ∈ tfidfVector idf tokens, 0 ≤ p.2 := by
  intro p hp
  unfold tfidfVector at hp
  split at hp
  · simp at hp
  · have := (List.mem_filter.mp hp).2
    exact le_of_lt (of_decide_eq_true this)

theorem cosineSim_tfidf_mem_unit (idf : String → ℝ) (ta tb : List String) :
    0 ≤ cosineSim (tfidfVector idf ta) (tfidfVector idf tb) ∧
      cosineSim (tfidfVector idf ta) (tfidfVector idf tb) ≤ 1 :=
  cosineSim_mem_unit _ _ (tfidfVector_keys_nodup idf ta) (tfidfVector_keys_nodup idf tb)
    (tfidfVector_vals_nonneg idf ta) (tfidfVector_vals_nonneg idf tb)

theorem evidenceSims_mem_bounds (idf : String → ℝ) (jdToks resToks : List (List String)) :
    ∀ s ∈ evidenceSims (jdToks.map (tfidfVector idf)) (resToks.map (tfidfVector idf)),
      0 < s ∧ s ≤ 1 := by
  intro s hs
  rw [evidenceSims, List.mem_mergeSort, List.mem_filter] at hs
  obtain ⟨hmem, hpos⟩ := hs
  refine ⟨of_decide_eq_true hpos, ?_⟩
  rw [embedSims, List.mem_flatMap] at hmem
  obtain ⟨jv, hjv, hsv⟩ := hmem
  rw [List.mem_map] at hsv
  obtain ⟨rv, hrv, rfl⟩ := hsv
  obtain ⟨ta, _, rfl⟩ := List.mem_map.mp hjv
  obtain ⟨tb, _, rfl⟩ := List.mem_map.mp hrv
  exact (cosineSim_tfidf_mem_unit idf ta tb).2

theorem le_foldl_max (l : List ℝ) (init : ℝ) : init ≤ l.foldl max init := by
  induction l generalizing init with
  | nil => exact le_refl init
  | cons b t ih =>
      rw [List.foldl_cons]
      exact le_trans (le_max_left init b) (ih (max init b))

theorem foldl_max_le_one (l : List ℝ) (init : ℝ) (hi : init ≤ 1)
    (h : ∀ x ∈ l, x ≤ 1) : l.foldl max init ≤ 1 := by
  induction l generalizing init with
  | nil => exact hi
  | cons b t ih =>
      rw [List.foldl_cons]
      exact ih (max init b)
        (max_le hi (h b (List.mem_cons_self b t)))
        (fun x hx => h x (List.mem_cons_of_mem b hx))

theorem titleSimilarity_mem_unit (idf : String → ℝ)
    (jobTitleToks candTitleToks : List (List String)) :
    0 ≤ titleSimilarity idf jobTitleToks candTitleToks ∧
      titleSimilarity idf jobTitleToks candTitleToks ≤ 1 := by
  unfold titleSimilarity
  split_ifs with h1 h2
  · exact ⟨le_refl 0, zero_le_one⟩
  · exact ⟨le_refl 0, zero_le_one⟩
  · constructor
    · exact le_foldl_max _ 0
    · apply foldl_max_le_one _ 0 zero_le_one
      intro x hx
      rw [List.mem_flatMap] at hx
      obtain ⟨jv, hjv, hxv⟩ := hx
      obtain ⟨cv, hcv, rfl⟩ := List.mem_map.mp hxv
      obtain ⟨ta, _, rfl⟩ := List.mem_map.mp hjv
      obtain ⟨tb, _, rfl⟩ := List.mem_map.mp hcv
      exact (cosineSim_tfidf_mem_unit idf ta tb).2

theorem round4_mem_unit (x : ℝ) (h0 : 0 ≤ x) (h1 : x ≤ 1) :
    0 ≤ round4 x ∧ round4 x ≤ 1 := by
  have hge : (0 : ℤ) ≤ round (x * 10000) := by
    calc (0 : ℤ) = round (0 : ℝ) := round_zero.symm
      _ ≤ round (x * 10000) := by
          rw [round_eq, round_eq]
          exact Int.floor_le_floor (by nlinarith)
  have hle : round (x * 10000) ≤ (10000 : ℤ) := by
    calc round (x * 10000) ≤ round (((10000 : ℤ) : ℝ)) := by
          rw [round_eq, round_eq]
          exact Int.floor_le_floor (by push_cast; nlinarith)
      _ = (10000 : ℤ) := round_intCast 10000
  unfold round4
  constructor
  · apply div_nonneg _ (by norm_num)
    exact_mod_cast hge
  · rw [div_le_one (by norm_num : (0:ℝ) < 10000)]
    exact_mod_cast hle

theorem avg_take_mem_unit (l : List ℝ) (k : ℕ) (hne : l ≠ []) (hk : 1 ≤ k)
    (hmem : ∀ x ∈ l, 0 < x ∧ x ≤ 1) :
    0 ≤ (l.take k).sum / ((min l.length k : ℕ) : ℝ) ∧
      (l.take k).sum / ((min l.length k : ℕ) : ℝ) ≤ 1 := by
  have hlen : 1 ≤ l.length := by
    cases l with
    | nil => exact absurd rfl hne
    | cons a t => simp
  have hminpos : 1 ≤ min l.length k := le_min hlen hk
  have hminR : (0 : ℝ) < ((min l.length k : ℕ) : ℝ) := by
    exact_mod_cast lt_of_lt_of_le Nat.zero_lt_one hminpos
  have hsumnn : 0 ≤ (l.take k).sum :=
    List.sum_nonneg (fun x hx => le_of_lt (hmem x (List.take_subset k l hx)).1)
  have hsumle : (l.take k).sum ≤ ((min l.length k : ℕ) : ℝ) := by
    have h1 : (l.take k).sum ≤ (l.take k).length • (1 : ℝ) :=
      List.sum_le_card_nsmul _ 1 (fun x hx => (hmem x (List.take_subset k l hx)).2)
    have h2 : (l.take k).length = min l.length k := by
      rw [List.length_take, Nat.min_comm]
    rw [h2] at h1
    simpa using h1
  exact ⟨div_nonneg hsumnn (le_of_lt hminR), (div_le_one hminR).mpr hsumle⟩

theorem cosineSim_eq_zero_of_degenerate (va vb : List (String × ℝ))
    (h : va = [] ∨ vb = [] ∨ Real.sqrt (normSq va) = 0 ∨ Real.sqrt (normSq vb) = 0) :
    cosineSim va vb = 0 := by
  unfold cosineSim
  split_ifs with h1 h2 h3
  · rfl
  · rfl
  · rfl
  · rcases h with h | h | h | h
    · exact absurd (Or.inl h) h1
    · exact absurd (Or.inr h) h1
    · exact absurd (Or.inl h) h3
    · exact absurd (Or.inr h) h3

/-- `embedEvaluate` either takes an early exit with `(0, 0)` or returns
the rounded top-`k` average and rounded title similarity over a non-empty
evidence list of TF-IDF cosines. -/
theorem embedEvaluate_cases (jdToks resumeToks jobTitleToks candTitleToks :
    List (List String)) (topK : ℕ) :
    embedEvaluate jdToks resumeToks jobTitleToks candTitleToks topK = (0, 0) ∨
    (evidenceSims (jdToks.map (tfidfVector (idfOf (jdToks ++ resumeToks))))
        (resumeToks.map (tfidfVector (idfOf (jdToks ++ resumeToks)))) ≠ [] ∧
      embedEvaluate jdToks resumeToks jobTitleToks candTitleToks topK =
        (round4
          (((evidenceSims (jdToks.map (tfidfVector (idfOf (jdToks ++ resumeToks))))
            (resumeToks.map (tfidfVector (idfOf (jdToks ++ resumeToks))))).take topK).sum /
            ((min (evidenceSims (jdToks.map (tfidfVector (idfOf (jdToks ++ resumeToks))))
              (resumeToks.map (tfidfVector (idfOf (jdToks ++ resumeToks))))).length topK : ℕ) : ℝ)),
         round4 (titleSimilarity (idfOf (jdToks ++ resumeToks))
           jobTitleToks candTitleToks))) := by
  simp only [embedEvaluate]
  split_ifs with h1 h2 h3 h4
  · exact Or.inl rfl
  · exact Or.inl rfl
  · exact Or.inl rfl
  · exact Or.inl rfl
  · exact Or.inr ⟨h4, rfl⟩

/-- **C6.** The emitted `embed_sim` and `sim_title` scores lie in `[0, 1]`;
both are 0 whenever the JD requirements side or the candidate entry side
is empty; and every pairwise cosine similarity is 0 when either vector is
empty or has zero norm. -/
theorem embed_scores_bounded :
    ∀ (jdToks resumeToks jobTitleToks candTitleToks : List (List String)) (topK : ℕ),
      1 ≤ topK →
      (0 ≤ (embedEvaluate jdToks resumeToks jobTitleToks candTitleToks topK).1 ∧
        (embedEvaluate jdToks resumeToks jobTitleToks candTitleToks topK).1 ≤ 1) ∧
      (0 ≤ (embedEvaluate jdToks resumeToks jobTitleToks candTitleToks topK).2 ∧
        (embedEvaluate jdToks resumeToks jobTitleToks candTitleToks topK).2 ≤ 1) ∧
      (jdToks = [] ∨ resumeToks = [] →
        embedEvaluate jdToks resumeToks jobTitleToks candTitleToks topK = (0, 0)) ∧
      (∀ va vb : List (String × ℝ),
        va = [] ∨ vb = [] ∨ Real.sqrt (normSq va) = 0 ∨ Real.sqrt (normSq vb) = 0 →
          cosineSim va vb = 0) := by
  intro jdToks resumeToks jobTitleToks candTitleToks topK hk
  have hmain : (0 ≤ (embedEvaluate jdToks resumeToks jobTitleToks candTitleToks topK).1 ∧
      (embedEvaluate jdToks resumeToks jobTitleToks candTitleToks topK).1 ≤ 1) ∧
      (0 ≤ (embedEvaluate jdToks resumeToks jobTitleToks candTitleToks topK).2 ∧
        (embedEvaluate jdToks resumeToks jobTitleToks candTitleToks topK).2 ≤ 1) := by
    rcases embedEvaluate_cases jdToks resumeToks jobTitleToks candTitleToks topK with
      hzero | ⟨hne, heq⟩
    · rw [hzero]
      norm_num
    · rw [heq]
      have havg := avg_take_mem_unit _ topK hne hk
        (evidenceSims_mem_bounds (idfOf (jdToks ++ resumeToks)) jdToks resumeToks)
      have htitle := titleSimilarity_mem_unit (idfOf (jdToks ++ resumeToks))
        jobTitleToks candTitleToks
      exact ⟨round4_mem_unit _ havg.1 havg.2, round4_mem_unit _ htitle.1 htitle.2⟩
  refine ⟨hmain.1, hmain.2, ?_, fun va vb h => cosineSim_eq_zero_of_degenerate va vb h⟩
  intro hempty
  rcases hempty with h | h
  · simp [embedEvaluate, h]
  · by_cases h1 : jdToks = []
    · simp [embedEvaluate, h1]
    · simp [embedEvaluate, h1, h]

/-- Witness for C6: an empty JD side yields the zero score pair, in
bounds. -/
theorem embed_scores_bounded_witness :
    embedEvaluate [] [["x"]] [] [] 3 = (0, 0) ∧
    0 ≤ (embedEvaluate [] [["x"]] [] [] 3).1 := by
  have h := embed_scores_bounded [] [["x"]] [] [] 3 (by norm_num)
  exact ⟨h.2.2.1 (Or.inl rfl), h.1.1⟩

end HrScreening
